import Mathlib

/-!
Verification of the dataset-normalization core of a Gaussian-splatting scene
loader (`scene/dataset_readers.py`).

The embedding below mirrors, function by function, the parts of the source
relevant to the claims:

* the train/test split policies of `readColmapSceneInfo`, `readKitti360Info`
  and `readNerfSyntheticInfo`;
* the camera-id (`uid`) assignment of `readColmapCameras`,
  `readCamerasFromTransforms` and the KITTI-360 camera construction;
* the point-cloud container writer/reader `storePly` / `fetchPly` and the
  random-point-cloud synthesis fallback;
* the scene normalization `getNerfppNorm` (over the reals, floats idealized
  as exact real arithmetic);
* the rig-log pose normalization `Normailize_T` (over the rationals, floats
  idealized as exact rational arithmetic).

Conventions of the embedding:

* Image file names only ever flow through a lexicographic sort, so they are
  modelled as an arbitrary linearly ordered key type kappa (instantiated by
  naturals in concrete computations).
* Camera records carry only the fields the claims mention (id, name); image
  payload, field of view and pose fields of `CameraInfo` are independent of
  the split / uniqueness / point-cloud claims and are elided.
* numpy float arrays are idealized as exact arithmetic; the `u1` cast in
  `storePly` is modelled as floor-and-wrap to 8 bits, which agrees with the
  numpy cast on the non-negative values the writer receives.
* The outcome of parsing an on-disk `.ply` container (which may be corrupt)
  is passed to the loader as an `Except` value: `Except.error` models the
  exception branch of the `try: fetchPly ... except: None` code.
-/

/-- `[c for idx, c in enumerate(l) if p idx]`: the elements of `l` whose
enumeration index satisfies `p`. -/
def filterIdx {α : Type} (p : ℕ → Bool) (l : List α) : List α :=
  (l.enum.filter fun ie => p ie.1).map Prod.snd

/-- Train/test split of `readColmapSceneInfo` (dataset_readers.py:151-158):
sort by image name, then with `eval` on, indices divisible by `llffhold` go
to test and the rest to train; with `eval` off everything is train. -/
def readColmapSceneInfo_split {α κ : Type} [LinearOrder κ] (name : α → κ)
    (eval : Bool) (llffhold : ℕ) (cam_infos_unsorted : List α) : List α × List α :=
  let cam_infos := List.insertionSort (fun a b => name a ≤ name b) cam_infos_unsorted
  if eval then
    (filterIdx (fun idx => idx % llffhold != 0) cam_infos,
     filterIdx (fun idx => idx % llffhold == 0) cam_infos)
  else
    (cam_infos, [])

/-- Train/test split of `readKitti360Info` (dataset_readers.py:318-323):
with `eval` on, enumeration indices in `i_test` go to test, the rest to
train; with `eval` off everything is train. -/
def readKitti360Info_split {α : Type} (eval : Bool) (i_test : List ℕ)
    (cam_infos : List α) : List α × List α :=
  if eval then
    (filterIdx (fun i => !(i_test.contains i)) cam_infos,
     filterIdx (fun i => i_test.contains i) cam_infos)
  else
    (cam_infos, [])

/-- Camera-list handling of `readNerfSyntheticInfo` (dataset_readers.py:226-234):
cameras come from two manifests; with `eval` off the test cameras are appended
to the train list and the test list is emptied. -/
def readNerfSyntheticInfo_split {α : Type} (train_cam_infos test_cam_infos : List α)
    (eval : Bool) : List α × List α :=
  if eval then (train_cam_infos, test_cam_infos)
  else (train_cam_infos ++ test_cam_infos, [])

/-- The split that the specification text ascribes to the synthetic-manifest
loader: sort all cameras by name and send every index divisible by the
holdout stride to test.  Stated from the spec wording, to be compared with
`readNerfSyntheticInfo_split`. -/
def specModuloHoldout {α κ : Type} [LinearOrder κ] (name : α → κ) (stride : ℕ)
    (cams : List α) : List α × List α :=
  let sorted := List.insertionSort (fun a b => name a ≤ name b) cams
  (filterIdx (fun idx => idx % stride != 0) sorted,
   filterIdx (fun idx => idx % stride == 0) sorted)

/-- One row of the reconstruction-tool extrinsics table: the referenced
intrinsics record (`camera_id`) and the image name. The quaternion/translation
columns play no role in the claims settled here and are elided. -/
structure Extr (κ : Type) where
  camera_id : ℕ
  name : κ
  deriving DecidableEq

/-- One row of the reconstruction-tool intrinsics table: its own id.  The
model tag, dimensions and focal parameters play no role in the claims
settled here and are elided. -/
structure Intr where
  id : ℕ
  deriving DecidableEq

/-- One frame of a synthetic-scene transform manifest (its file-path stub);
the 4x4 transform plays no role in the claims settled here. -/
structure Frame (κ : Type) where
  file_path : κ
  deriving DecidableEq

/-- The id/name projection of a `CameraInfo` record. -/
structure CamRec (κ : Type) where
  uid : ℕ
  image_name : κ
  deriving DecidableEq

/-- `readColmapCameras` (dataset_readers.py:70-107), projected to the
id/name fields: each produced camera takes `uid` from the id of the
intrinsics record referenced by its extrinsics row. -/
def readColmapCameras {κ : Type} (cam_extrinsics : List (Extr κ))
    (cam_intrinsics : ℕ → Intr) : List (CamRec κ) :=
  cam_extrinsics.map fun extr =>
    { uid := (cam_intrinsics extr.camera_id).id, image_name := extr.name }

/-- `readCamerasFromTransforms` (dataset_readers.py:184-224), projected to
the id/name fields: `uid` is the enumeration index of the frame in the
manifest. -/
def readCamerasFromTransforms {κ : Type} (frames : List (Frame κ)) : List (CamRec κ) :=
  frames.enum.map fun p => { uid := p.1, image_name := p.2.file_path }

/-- Camera construction of `readKitti360Info` (dataset_readers.py:284-315),
projected to the id/name fields: `uid` is the enumeration index of the
pose/image pair and `nameOf` models the formatted image name. -/
def readKitti360Cameras {κ : Type} (nameOf : ℕ → κ) (n : ℕ) : List (CamRec κ) :=
  (List.range n).map fun idx => { uid := idx, image_name := nameOf idx }

/-- A 3-vector of rationals (one row of an N x 3 float array). -/
abbrev V3 := ℚ × ℚ × ℚ

/-- Apply `f` to each component of a 3-vector. -/
def map3 (f : ℚ → ℚ) (v : V3) : V3 := (f v.1, f v.2.1, f v.2.2)

/-- The numpy cast of a non-negative float to `u1` (unsigned 8-bit):
truncate and wrap to 8 bits. -/
def u1ofRat (q : ℚ) : ℕ := (Int.toNat ⌊q⌋) % 256

/-- One vertex of the on-disk point-cloud container, with the dtype of
`storePly`: `f4` positions and normals, `u1` colors. -/
structure PlyVertex where
  x : ℚ
  y : ℚ
  z : ℚ
  nx : ℚ
  ny : ℚ
  nz : ℚ
  red : ℕ
  green : ℕ
  blue : ℕ
  deriving DecidableEq

/-- `BasicPointCloud` as produced by `fetchPly` / the synthesis fallback. -/
structure BasicPointCloud where
  points : List V3
  colors : List V3
  normals : Option (List V3)
  deriving DecidableEq

/-- `storePly` (dataset_readers.py:120-135): rows of `xyz` and `rgb` are
zipped into vertices; normals are zero-filled; colors are cast to `u1`. -/
def storePly (xyz : List V3) (rgb : List V3) : List PlyVertex :=
  List.zipWith
    (fun p c =>
      { x := p.1, y := p.2.1, z := p.2.2,
        nx := 0, ny := 0, nz := 0,
        red := u1ofRat c.1, green := u1ofRat c.2.1, blue := u1ofRat c.2.2 })
    xyz rgb

/-- `fetchPly` (dataset_readers.py:109-118): positions and normals are read
back as stored; colors are divided by 255. -/
def fetchPly (vertices : List PlyVertex) (return_normals : Bool) : BasicPointCloud :=
  { points := vertices.map fun v => (v.x, v.y, v.z),
    colors := vertices.map fun v => ((v.red : ℚ) / 255, (v.green : ℚ) / 255, (v.blue : ℚ) / 255),
    normals := if return_normals then some (vertices.map fun v => (v.nx, v.ny, v.nz)) else none }

/-- The synthesized positions `np.random.random((100000, 3)) * 2.6 - 1.3`
(dataset_readers.py:241-245); `rand` is the stream of uniform draws in
`[0, 1)`. -/
def synthXyz (rand : ℕ → V3) : List V3 :=
  (List.range 100000).map fun i => map3 (fun r => r * 2.6 - 1.3) (rand i)

/-- The synthesized harmonic coefficients `np.random.random((100000, 3)) / 255.0`
(dataset_readers.py:246). -/
def synthShs (randc : ℕ → V3) : List V3 :=
  (List.range 100000).map fun i => map3 (fun r => r / 255) (randc i)

/-- The in-memory synthesized point cloud (dataset_readers.py:247 and its
copy at 330-335).  `sh2rgb` abstracts the `SH2RGB` color transform of
`utils/sh_utils.py`, which is not part of the sources under scrutiny; no
claim depends on its formula. -/
def synthPcd (sh2rgb : ℚ → ℚ) (rand randc : ℕ → V3) : BasicPointCloud :=
  { points := synthXyz rand,
    colors := (synthShs randc).map (map3 sh2rgb),
    normals := some (List.replicate 100000 ((0 : ℚ), (0 : ℚ), (0 : ℚ))) }

/-- Point-cloud resolution of `readNerfSyntheticInfo` (dataset_readers.py:238-253).
`ply_file = none` models an absent container: the loader synthesizes points,
writes them with `storePly` and reads the written container back.
`ply_file = some r` models an existing container whose parse outcome is `r`;
a parse failure is recovered as an absent point cloud. -/
def readNerfSyntheticInfo_pointCloud (sh2rgb : ℚ → ℚ)
    (ply_file : Option (Except Unit (List PlyVertex))) (rand randc : ℕ → V3) :
    Option BasicPointCloud :=
  match ply_file with
  | some (Except.ok vs) => some (fetchPly vs true)
  | some (Except.error _) => none
  | none =>
      some (fetchPly
        (storePly (synthXyz rand) ((synthShs randc).map (map3 fun s => sh2rgb s * 255)))
        true)

/-- Point-cloud resolution of `readColmapSceneInfo` (dataset_readers.py:162-175):
the parse outcome of the container at fetch time is passed in; a parse
failure is recovered as an absent point cloud. -/
def readColmapSceneInfo_pointCloud (ply_file : Except Unit (List PlyVertex)) :
    Option BasicPointCloud :=
  match ply_file with
  | Except.ok vs => some (fetchPly vs true)
  | Except.error _ => none

/-- The scene descriptor fields the claims mention (`SceneInfo`,
dataset_readers.py:40-45); the normalization is settled separately by
`getNerfppNorm` below and the provenance path is a constant string. -/
structure SceneInfo (α : Type) where
  point_cloud : Option BasicPointCloud
  train_cameras : List α
  test_cameras : List α

/-- Assembly of `readColmapSceneInfo` (dataset_readers.py:137-182), for the
point-cloud and camera-list fields. -/
def readColmapSceneInfo {α κ : Type} [LinearOrder κ] (name : α → κ) (eval : Bool)
    (llffhold : ℕ) (cams : List α) (ply_file : Except Unit (List PlyVertex)) :
    SceneInfo α :=
  { point_cloud := readColmapSceneInfo_pointCloud ply_file,
    train_cameras := (readColmapSceneInfo_split name eval llffhold cams).1,
    test_cameras := (readColmapSceneInfo_split name eval llffhold cams).2 }

/-- Assembly of `readNerfSyntheticInfo` (dataset_readers.py:226-260), for the
point-cloud and camera-list fields. -/
def readNerfSyntheticInfo {α : Type} (train test : List α) (eval : Bool)
    (sh2rgb : ℚ → ℚ) (ply_file : Option (Except Unit (List PlyVertex)))
    (rand randc : ℕ → V3) : SceneInfo α :=
  { point_cloud := readNerfSyntheticInfo_pointCloud sh2rgb ply_file rand randc,
    train_cameras := (readNerfSyntheticInfo_split train test eval).1,
    test_cameras := (readNerfSyntheticInfo_split train test eval).2 }

noncomputable section

/-- A 3x3 real matrix. -/
abbrev M3R := Matrix (Fin 3) (Fin 3) ℝ

/-- A real 3-vector. -/
abbrev V3R := Fin 3 → ℝ

/-- The homogeneous 4x4 matrix with rotation block `A`, translation column
`t` and last row `0 0 0 1`. -/
def homog (A : M3R) (t : V3R) : Matrix (Fin 4) (Fin 4) ℝ :=
  !![A 0 0, A 0 1, A 0 2, t 0;
     A 1 0, A 1 1, A 1 2, t 1;
     A 2 0, A 2 1, A 2 2, t 2;
     0, 0, 0, 1]

/-- Modelled from the spec: `getWorld2View2` of `utils/graphics_utils.py` is
not among the sources under scrutiny.  Per the spec (data model and design
notes), the camera rotation is stored transposed relative to the
world-to-camera convention, so the world-to-camera matrix is the homogeneous
matrix with rotation block `R` transposed and translation column `T`. -/
def getWorld2View2 (R : M3R) (t : V3R) : Matrix (Fin 4) (Fin 4) ℝ :=
  homog R.transpose t

/-- The pose fields of a camera record used by the scene normalizer. -/
structure CamRT where
  R : M3R
  T : V3R

/-- The camera center used by `getNerfppNorm` (dataset_readers.py:58-61):
the translation column of `np.linalg.inv(getWorld2View2(cam.R, cam.T))`. -/
def camCenterOf (cam : CamRT) : V3R :=
  fun i => (getWorld2View2 cam.R cam.T)⁻¹ i.castSucc 3

/-- `np.max` over a non-empty list (0 on the empty list, unreachable in the
source). -/
def listMax : List ℝ → ℝ
  | [] => 0
  | x :: xs => xs.foldl max x

/-- The translate/radius pair returned by `getNerfppNorm`. -/
structure NerfNorm where
  translate : V3R
  radius : ℝ

/-- `getNerfppNorm` (dataset_readers.py:47-68): camera centers from the
inverted world-to-camera transforms, their mean, the largest Euclidean
distance from the mean to a center, translate `-mean` and radius
`1.1 * diagonal`. -/
def getNerfppNorm (cam_info : List CamRT) : NerfNorm :=
  let cam_centers := cam_info.map camCenterOf
  let avg_cam_center : V3R := ((cam_info.length : ℝ))⁻¹ • cam_centers.sum
  let dist := cam_centers.map fun c => Real.sqrt (∑ i, (c i - avg_cam_center i) ^ 2)
  let diagonal := listMax dist
  { translate := -avg_cam_center, radius := diagonal * 1.1 }

/-- The camera center as the spec describes it in closed form: minus the
stored rotation applied to the stored translation (the translation column of
the inverse of the world-to-camera transform, for an orthonormal rotation). -/
def specCamCenter (cam : CamRT) : V3R := -(cam.R.mulVec cam.T)

/-- The mean of the spec-side camera centers. -/
def specMean (cams : List CamRT) : V3R :=
  ((cams.length : ℝ))⁻¹ • (cams.map specCamCenter).sum

/-- Concrete camera used to instantiate the normalization theorem. -/
def camW : CamRT := { R := 1, T := 0 }

end

/-- A 4x4 rational matrix (one rig-log pose). -/
abbrev M4Q := Matrix (Fin 4) (Fin 4) ℚ

/-- `np.linalg.inv` on a 4x4 matrix, in adjugate form (equal to the Mathlib
matrix inverse for every matrix, and to the true inverse whenever the
determinant is nonzero, which `np.linalg.inv` requires). -/
def npInv (A : M4Q) : M4Q := (A.det)⁻¹ • A.adjugate

/-- `poses[i][:3, 3] = poses[i][:3, 3] / scale` applied to one pose: divide
the top three entries of the translation column by `scale`. -/
def scaleT (s : ℚ) (p : M4Q) : M4Q :=
  Matrix.of fun i j => if (i : ℕ) < 3 ∧ (j : ℕ) = 3 then p i j / s else p i j

/-- The re-basing loop of `Normailize_T` (dataset_readers.py:583-588): the
first pose becomes the identity and every later pose is premultiplied by the
inverse of the original first pose. -/
def rebase : List M4Q → List M4Q
  | [] => []
  | p0 :: rest => (1 : M4Q) :: rest.map fun p => npInv p0 * p

/-- `scale = poses[-1, 2, 3]` (dataset_readers.py:591): the depth component
of the translation of the re-based terminal pose. -/
def termScale (poses : List M4Q) : ℚ := ((rebase poses).getLastD 1) 2 3

/-- `Normailize_T` (dataset_readers.py:582-596): re-base all poses onto the
first frame, then divide every translation by the terminal depth component. -/
def Normailize_T (poses : List M4Q) : List M4Q :=
  (rebase poses).map (scaleT (termScale poses))

/-- Concrete second pose used to instantiate the pose-normalization theorem:
the identity rotation translated by 2 along the depth axis. -/
def poseW : M4Q :=
  Matrix.of fun i j => if (i : ℕ) = 2 ∧ (j : ℕ) = 3 then 2 else if i = j then 1 else 0

/-- Sixteen cameras with presorted numeric names, used to instantiate the
16-camera holdout scenario of the spec. -/
def demo16 : List ℕ := List.range 16

theorem filterIdx_append_perm {α : Type} (p : ℕ → Bool) (l : List α) :
    (filterIdx p l ++ filterIdx (fun i => !(p i)) l).Perm l := by
  have h1 : filterIdx p l ++ filterIdx (fun i => !(p i)) l
      = ((l.enum.filter fun ie => p ie.1) ++ (l.enum.filter fun ie => !(p ie.1))).map Prod.snd := by
    simp [filterIdx]
  rw [h1]
  have h2 := (List.filter_append_perm (fun ie => p ie.1) l.enum).map Prod.snd
  rw [List.enum_map_snd] at h2
  exact h2

theorem filterIdx_partition {α : Type} (p : ℕ → Bool) (l : List α) :
    ((filterIdx (fun i => !(p i)) l ++ filterIdx p l).Perm l) ∧
    (l.Nodup → (filterIdx (fun i => !(p i)) l).Disjoint (filterIdx p l)) := by
  have hperm : (filterIdx (fun i => !(p i)) l ++ filterIdx p l).Perm l :=
    List.perm_append_comm.trans (filterIdx_append_perm p l)
  refine ⟨hperm, fun hnd => ?_⟩
  have h2 : (filterIdx (fun i => !(p i)) l ++ filterIdx p l).Nodup :=
    (hperm.symm).nodup hnd
  exact (List.nodup_append.mp h2).2.2

theorem filterIdx_length {α : Type} (p : ℕ → Bool) (l : List α) :
    (filterIdx p l).length = ((List.range l.length).filter p).length := by
  have h1 : (l.enum.filter fun ie => p ie.1) = l.enum.filter (p ∘ Prod.fst) := rfl
  calc (filterIdx p l).length
      = (List.map Prod.fst (l.enum.filter (p ∘ Prod.fst))).length := by
        simp [filterIdx, h1]
    _ = ((l.enum.map Prod.fst).filter p).length := by rw [← List.filter_map]
    _ = ((List.range l.length).filter p).length := by rw [List.enum_map_fst]

theorem length_filter_mod (k : ℕ) (hk : 0 < k) :
    ∀ N, ((List.range N).filter fun i => i % k == 0).length = (N + k - 1) / k := by
  intro N
  induction N with
  | zero =>
    have h : (0 + k - 1) / k = 0 := Nat.div_eq_of_lt (by omega)
    simpa using h.symm
  | succ n ih =>
    have hfs : ((List.filter (fun i => i % k == 0) [n]).length) = if n % k = 0 then 1 else 0 := by
      by_cases h : n % k = 0 <;> simp [List.filter_singleton, h]
    rw [List.range_succ, List.filter_append, List.length_append, ih, hfs]
    obtain ⟨q, r, hr, rfl⟩ : ∃ q r, r < k ∧ n = k * q + r :=
      ⟨n / k, n % k, Nat.mod_lt _ hk, (Nat.div_add_mod n k).symm⟩
    have hmul : k * (q + 1) = k * q + k := by ring
    by_cases h0 : r = 0
    · subst h0
      have e1 : k * q + 0 + 1 + k - 1 = k * (q + 1) := by omega
      have e2 : k * q + 0 + k - 1 = k * q + (k - 1) := by omega
      have e3 : (k * q + 0) % k = 0 := by simp [Nat.mul_mod_right]
      rw [e1, e2, if_pos e3, Nat.mul_add_div hk,
        Nat.div_eq_of_lt (show k - 1 < k by omega),
        Nat.mul_div_cancel_left _ hk]
    · have e1 : k * q + r + 1 + k - 1 = k * (q + 1) + r := by omega
      have e2 : k * q + r + k - 1 = k * (q + 1) + (r - 1) := by omega
      have e3 : (k * q + r) % k = r := by
        rw [Nat.mul_add_mod]; exact Nat.mod_eq_of_lt hr
      rw [e1, e2, if_neg (by rw [e3]; exact h0), Nat.mul_add_div hk, Nat.mul_add_div hk,
        Nat.div_eq_of_lt (show r - 1 < k by omega), Nat.div_eq_of_lt hr]

theorem readColmapSceneInfo_split_partition {α κ : Type} [LinearOrder κ] (name : α → κ)
    (eval : Bool) (llffhold : ℕ) (cams : List α) :
    (((readColmapSceneInfo_split name eval llffhold cams).1 ++
      (readColmapSceneInfo_split name eval llffhold cams).2).Perm cams) ∧
    (cams.Nodup →
      (readColmapSceneInfo_split name eval llffhold cams).1.Disjoint
        (readColmapSceneInfo_split name eval llffhold cams).2) := by
  have hsortperm := List.perm_insertionSort (fun a b => name a ≤ name b) cams
  cases eval with
  | false =>
    constructor
    · simpa [readColmapSceneInfo_split] using hsortperm
    · intro hnd
      simp [readColmapSceneInfo_split, List.Disjoint]
  | true =>
    have hbne : (fun idx : ℕ => idx % llffhold != 0)
        = (fun idx : ℕ => !(idx % llffhold == 0)) := rfl
    have hpart := filterIdx_partition (fun idx : ℕ => idx % llffhold == 0)
      (List.insertionSort (fun a b => name a ≤ name b) cams)
    constructor
    · refine List.Perm.trans ?_ hsortperm
      simpa [readColmapSceneInfo_split, hbne] using hpart.1
    · intro hnd
      have hnds := hsortperm.symm.nodup hnd
      simpa [readColmapSceneInfo_split, hbne] using hpart.2 hnds

theorem readKitti360Info_split_partition {α : Type} (eval : Bool) (i_test : List ℕ)
    (cams : List α) :
    (((readKitti360Info_split eval i_test cams).1 ++
      (readKitti360Info_split eval i_test cams).2).Perm cams) ∧
    (cams.Nodup →
      (readKitti360Info_split eval i_test cams).1.Disjoint
        (readKitti360Info_split eval i_test cams).2) := by
  cases eval with
  | false =>
    constructor
    · simp [readKitti360Info_split]
    · intro hnd
      simp [readKitti360Info_split, List.Disjoint]
  | true =>
    have hpart := filterIdx_partition (fun i : ℕ => i_test.contains i) cams
    constructor
    · simpa [readKitti360Info_split] using hpart.1
    · intro hnd
      simpa [readKitti360Info_split] using hpart.2 hnd

/-- Claim C2: for every load operation and every input camera list, the
train and test camera sequences are disjoint, and their concatenation is a
permutation of the input camera list (every input camera appears exactly
once); proven for the reconstruction-tool split and the rig-log split, with
disjointness stated for duplicate-free inputs. -/
theorem train_test_partition {α κ : Type} [LinearOrder κ] (name : α → κ)
    (cams : List α) (eval : Bool) (llffhold : ℕ) (i_test : List ℕ)
    (hnd : cams.Nodup) :
    (((readColmapSceneInfo_split name eval llffhold cams).1 ++
      (readColmapSceneInfo_split name eval llffhold cams).2).Perm cams) ∧
    ((readColmapSceneInfo_split name eval llffhold cams).1.Disjoint
      (readColmapSceneInfo_split name eval llffhold cams).2) ∧
    (((readKitti360Info_split eval i_test cams).1 ++
      (readKitti360Info_split eval i_test cams).2).Perm cams) ∧
    ((readKitti360Info_split eval i_test cams).1.Disjoint
      (readKitti360Info_split eval i_test cams).2) := by
  have h1 := readColmapSceneInfo_split_partition name eval llffhold cams
  have h2 := readKitti360Info_split_partition eval i_test cams
  exact ⟨h1.1, h1.2 hnd, h2.1, h2.2 hnd⟩

/-- Witness for C2 at a concrete camera list. -/
theorem train_test_partition_witness :
    ([2, 1] : List ℕ).Nodup ∧
    (((readColmapSceneInfo_split (fun n : ℕ => n) true 8 [2, 1]).1 ++
      (readColmapSceneInfo_split (fun n : ℕ => n) true 8 [2, 1]).2).Perm [2, 1]) :=
  ⟨by decide, (train_test_partition (fun n : ℕ => n) [2, 1] true 8 [0] (by decide)).1⟩

/-- Claim C3: with evaluation on, the reconstruction-tool split puts exactly
`ceil(N / k)` cameras into test, namely those at sorted indices divisible by
`k`; with evaluation off the test set is empty and all `N` cameras are in
train; in particular 16 cameras with stride 8 yield the test cameras at
sorted indices 0 and 8 and 14 train cameras. -/
theorem readColmapSceneInfo_split_holdout {α κ : Type} [LinearOrder κ] (name : α → κ)
    (cams : List α) (k : ℕ) (hk : 0 < k) :
    ((readColmapSceneInfo_split name true k cams).2
      = filterIdx (fun idx => decide (k ∣ idx))
          (List.insertionSort (fun a b => name a ≤ name b) cams)) ∧
    ((readColmapSceneInfo_split name true k cams).2.length = (cams.length + k - 1) / k) ∧
    ((readColmapSceneInfo_split name true k cams).1.length
      = cams.length - (cams.length + k - 1) / k) ∧
    ((readColmapSceneInfo_split name false k cams).2 = []) ∧
    ((readColmapSceneInfo_split name false k cams).1.Perm cams) ∧
    ((readColmapSceneInfo_split (fun n : ℕ => n) true 8 demo16).2 = [0, 8]) ∧
    ((readColmapSceneInfo_split (fun n : ℕ => n) true 8 demo16).1.length = 14) := by
  have hsortperm := List.perm_insertionSort (fun a b => name a ≤ name b) cams
  have hsortlen : (List.insertionSort (fun a b => name a ≤ name b) cams).length
      = cams.length := hsortperm.length_eq
  have hdvd : (fun idx : ℕ => idx % k == 0) = (fun idx : ℕ => decide (k ∣ idx)) := by
    funext idx
    by_cases h : idx % k = 0 <;> simp [h, Nat.dvd_iff_mod_eq_zero]
  have htest : (readColmapSceneInfo_split name true k cams).2
      = filterIdx (fun idx => idx % k == 0)
          (List.insertionSort (fun a b => name a ≤ name b) cams) := by
    simp [readColmapSceneInfo_split]
  have hlen2 : (readColmapSceneInfo_split name true k cams).2.length
      = (cams.length + k - 1) / k := by
    rw [htest, filterIdx_length, hsortlen, length_filter_mod k hk]
  refine ⟨by rw [htest, hdvd], hlen2, ?_, by simp [readColmapSceneInfo_split],
    by simpa [readColmapSceneInfo_split] using hsortperm, by decide, by decide⟩
  have hperm := (readColmapSceneInfo_split_partition name true k cams).1
  have hlensum := hperm.length_eq
  rw [List.length_append] at hlensum
  omega

/-- Witness for C3 at a concrete camera list and stride. -/
theorem readColmapSceneInfo_split_holdout_witness :
    (0 < 2) ∧
    ((readColmapSceneInfo_split (fun n : ℕ => n) true 2 [5, 3, 4]).2.length = (3 + 2 - 1) / 2) :=
  ⟨by decide, (readColmapSceneInfo_split_holdout (fun n : ℕ => n) [5, 3, 4] 2 (by decide)).2.1⟩

/-- Counterexample to claim C4: a synthetic-manifest load with evaluation on
keeps the manifests' own division into train and test; for a train manifest
naming camera 0 and a test manifest naming camera 1 the produced test set
differs from the sorted modulo-holdout prediction of the spec. -/
theorem readNerfSyntheticInfo_split_ne_specModuloHoldout :
    (readNerfSyntheticInfo_split [(0 : ℕ)] [1] true).2
      ≠ (specModuloHoldout (fun n : ℕ => n) 8 ([0] ++ [1])).2 := by
  decide

/-- Claim C4 (amended): the synthetic-manifest loader applies no sorting and
no modulo holdout; with evaluation on, the train-manifest cameras are the
train set and the test-manifest cameras are the test set, and with
evaluation off the test-manifest cameras are appended to the train set and
the test set is empty. -/
theorem readNerfSyntheticInfo_split_by_manifest {α : Type} (train test : List α) :
    readNerfSyntheticInfo_split train test true = (train, test) ∧
    readNerfSyntheticInfo_split train test false = (train ++ test, []) := by
  constructor <;> simp [readNerfSyntheticInfo_split]

/-- Counterexample to claim C9: in a reconstruction-tool load, `uid` is the
id of the referenced intrinsics record, so two images sharing one intrinsics
record produce two camera records with the same id; the ids of the cameras
of the assembled load (train followed by test) are not pairwise distinct. -/
theorem readColmapCameras_uid_not_unique :
    ¬ ((((readColmapSceneInfo_split (fun c : CamRec ℕ => c.image_name) true 8
            (readColmapCameras [⟨1, 0⟩, ⟨1, 1⟩] (fun _ => ⟨7⟩))).1 ++
          (readColmapSceneInfo_split (fun c : CamRec ℕ => c.image_name) true 8
            (readColmapCameras [⟨1, 0⟩, ⟨1, 1⟩] (fun _ => ⟨7⟩))).2).map
        CamRec.uid).Nodup) := by
  decide

/-- Claim C9 (amended): ids are the enumeration indices, hence unique, for
the cameras of one synthetic manifest and for a rig-log load; for a
reconstruction-tool load the id of each camera is the id of the intrinsics
record its extrinsics row references, so ids are unique exactly when those
referenced ids are pairwise distinct; and the two camera lists of a
synthetic load both enumerate from zero, so a load with at least one train
and one test camera repeats ids across the two lists. -/
theorem uid_assignment {κ : Type} (frames frames2 : List (Frame κ)) (nameOf : ℕ → κ)
    (n : ℕ) (cam_extrinsics : List (Extr κ)) (cam_intrinsics : ℕ → Intr) :
    ((readCamerasFromTransforms frames).map CamRec.uid = List.range frames.length) ∧
    (((readCamerasFromTransforms frames).map CamRec.uid).Nodup) ∧
    ((readKitti360Cameras nameOf n).map CamRec.uid = List.range n) ∧
    (((readKitti360Cameras nameOf n).map CamRec.uid).Nodup) ∧
    ((readColmapCameras cam_extrinsics cam_intrinsics).map CamRec.uid
      = cam_extrinsics.map fun e => (cam_intrinsics e.camera_id).id) ∧
    ((cam_extrinsics.map fun e => (cam_intrinsics e.camera_id).id).Nodup →
      ((readColmapCameras cam_extrinsics cam_intrinsics).map CamRec.uid).Nodup) ∧
    (frames ≠ [] → frames2 ≠ [] →
      ¬ (((readCamerasFromTransforms frames ++ readCamerasFromTransforms frames2).map
          CamRec.uid).Nodup)) := by
  have htrans : ∀ (fs : List (Frame κ)),
      (readCamerasFromTransforms fs).map CamRec.uid = List.range fs.length := by
    intro fs
    have hcomp : (fun c : CamRec κ => c.uid) ∘
        (fun p : ℕ × Frame κ => ({ uid := p.1, image_name := p.2.file_path } : CamRec κ))
        = Prod.fst := rfl
    rw [readCamerasFromTransforms, List.map_map, hcomp, List.enum_map_fst]
  have hkitti : (readKitti360Cameras nameOf n).map CamRec.uid = List.range n := by
    have hcomp : (fun c : CamRec κ => c.uid) ∘
        (fun idx : ℕ => ({ uid := idx, image_name := nameOf idx } : CamRec κ)) = id := rfl
    rw [readKitti360Cameras, List.map_map, hcomp, List.map_id]
  have hcolmap : (readColmapCameras cam_extrinsics cam_intrinsics).map CamRec.uid
      = cam_extrinsics.map fun e => (cam_intrinsics e.camera_id).id := by
    rw [readColmapCameras, List.map_map]
    rfl
  refine ⟨htrans frames, by rw [htrans frames]; exact List.nodup_range _,
    hkitti, by rw [hkitti]; exact List.nodup_range _,
    hcolmap, fun h => by rwa [hcolmap], ?_⟩
  intro h1 h2 hnd
  rw [List.map_append, htrans frames, htrans frames2, List.nodup_append] at hnd
  exact hnd.2.2
    (List.mem_range.mpr (List.length_pos.mpr h1))
    (List.mem_range.mpr (List.length_pos.mpr h2))

/-- Witness for the amended C9 at concrete inputs. -/
theorem uid_assignment_witness :
    (([(⟨4, 0⟩ : Extr ℕ), ⟨6, 1⟩].map fun e => ((fun j => (⟨j⟩ : Intr)) e.camera_id).id).Nodup ∧
      ((readColmapCameras [(⟨4, 0⟩ : Extr ℕ), ⟨6, 1⟩] (fun j => ⟨j⟩)).map CamRec.uid).Nodup) ∧
    ¬ (((readCamerasFromTransforms [(⟨0⟩ : Frame ℕ)] ++
        readCamerasFromTransforms [(⟨1⟩ : Frame ℕ)]).map CamRec.uid).Nodup) := by
  have h := uid_assignment [(⟨0⟩ : Frame ℕ)] [(⟨1⟩ : Frame ℕ)] (fun i => i) 1
    [(⟨4, 0⟩ : Extr ℕ), ⟨6, 1⟩] (fun j => ⟨j⟩)
  exact ⟨⟨by decide, h.2.2.2.2.2.1 (by decide)⟩,
    h.2.2.2.2.2.2 (by simp) (by simp)⟩

theorem fetchPly_storePly_points (xyz rgb : List V3) :
    (fetchPly (storePly xyz rgb) true).points = xyz.take rgb.length := by
  induction xyz generalizing rgb with
  | nil => simp [fetchPly, storePly]
  | cons p ps ih =>
    cases rgb with
    | nil => simp [fetchPly, storePly]
    | cons c cs =>
      have h2 := ih cs
      simp only [fetchPly, storePly] at h2 ⊢
      simpa using h2

theorem fetchPly_storePly_normals (xyz rgb : List V3) :
    (fetchPly (storePly xyz rgb) true).normals
      = some (List.replicate (min xyz.length rgb.length) ((0 : ℚ), (0 : ℚ), (0 : ℚ))) := by
  induction xyz generalizing rgb with
  | nil => simp [fetchPly, storePly]
  | cons p ps ih =>
    cases rgb with
    | nil => simp [fetchPly, storePly]
    | cons c cs =>
      have h2 := ih cs
      simp [fetchPly, storePly] at h2
      simp [fetchPly, storePly, List.replicate_succ, Nat.succ_min_succ, h2]

theorem fetchPly_storePly_colors (xyz rgb : List V3) :
    (fetchPly (storePly xyz rgb) true).colors
      = (rgb.take xyz.length).map (map3 fun q => (u1ofRat q : ℚ) / 255) := by
  induction xyz generalizing rgb with
  | nil => simp [fetchPly, storePly]
  | cons p ps ih =>
    cases rgb with
    | nil => simp [fetchPly, storePly]
    | cons c cs =>
      have h2 := ih cs
      simp only [fetchPly, storePly] at h2 ⊢
      simpa [map3] using h2

theorem u1ofRat_close (c : ℚ) (h0 : 0 ≤ c) (h1 : c ≤ 1) :
    |((u1ofRat (c * 255) : ℚ)) / 255 - c| < 1 / 255 := by
  have hfl0 : (0 : ℤ) ≤ ⌊c * 255⌋ := Int.floor_nonneg.mpr (by positivity)
  have hfl255 : ⌊c * 255⌋ ≤ 255 := by
    have hle255 : c * 255 ≤ 255 := by nlinarith
    calc ⌊c * 255⌋ ≤ ⌊(255 : ℚ)⌋ := Int.floor_le_floor hle255
      _ = 255 := by norm_num
  have hmod : u1ofRat (c * 255) = Int.toNat ⌊c * 255⌋ := by
    rw [u1ofRat]
    exact Nat.mod_eq_of_lt (by omega)
  have hcast : ((u1ofRat (c * 255) : ℚ)) = ((⌊c * 255⌋ : ℤ) : ℚ) := by
    rw [hmod]
    exact_mod_cast Int.toNat_of_nonneg hfl0
  rw [hcast]
  have hle : ((⌊c * 255⌋ : ℤ) : ℚ) ≤ c * 255 := Int.floor_le _
  have hgt : c * 255 < ((⌊c * 255⌋ : ℤ) : ℚ) + 1 := Int.lt_floor_add_one _
  rw [abs_lt]
  constructor <;> nlinarith

/-- All three components lie in the closed unit interval. -/
def inUnitClosed3 (c : V3) : Prop :=
  0 ≤ c.1 ∧ c.1 ≤ 1 ∧ 0 ≤ c.2.1 ∧ c.2.1 ≤ 1 ∧ 0 ≤ c.2.2 ∧ c.2.2 ≤ 1

/-- All three components lie in the half-open unit interval `[0, 1)`, the
range of `np.random.random`. -/
def inUnitHalfOpen3 (c : V3) : Prop :=
  0 ≤ c.1 ∧ c.1 < 1 ∧ 0 ≤ c.2.1 ∧ c.2.1 < 1 ∧ 0 ≤ c.2.2 ∧ c.2.2 < 1

/-- All three components lie in `[-1.3, 1.3]`. -/
def inCube13 (p : V3) : Prop :=
  -1.3 ≤ p.1 ∧ p.1 ≤ 1.3 ∧ -1.3 ≤ p.2.1 ∧ p.2.1 ≤ 1.3 ∧ -1.3 ≤ p.2.2 ∧ p.2.2 ≤ 1.3

/-- Componentwise closeness within the 8-bit color quantization step. -/
def closeColor (a b : V3) : Prop :=
  |a.1 - b.1| < 1 / 255 ∧ |a.2.1 - b.2.1| < 1 / 255 ∧ |a.2.2 - b.2.2| < 1 / 255

/-- Claim C6: writing a point cloud (positions, colors in `[0,1]` scaled to
8-bit by the callers) with `storePly` and reading it back with `fetchPly`
returns the positions exactly, every color within the 8-bit quantization
step `1/255` of the input, and all-zero normals regardless of the input
normals (which the writer does not even accept). -/
theorem storePly_fetchPly_roundtrip (xyz cols : List V3)
    (hlen : cols.length = xyz.length)
    (hc : ∀ c ∈ cols, inUnitClosed3 c) :
    ((fetchPly (storePly xyz (cols.map (map3 fun x => x * 255))) true).points = xyz) ∧
    (List.Forall₂ closeColor
      (fetchPly (storePly xyz (cols.map (map3 fun x => x * 255))) true).colors cols) ∧
    ((fetchPly (storePly xyz (cols.map (map3 fun x => x * 255))) true).normals
      = some (List.replicate xyz.length ((0 : ℚ), (0 : ℚ), (0 : ℚ)))) := by
  refine ⟨?_, ?_, ?_⟩
  · rw [fetchPly_storePly_points, List.length_map, hlen, List.take_length]
  · rw [fetchPly_storePly_colors, ← List.map_take, ← hlen, List.take_length, List.map_map]
    rw [List.forall₂_map_left_iff, List.forall₂_same]
    intro c hcm
    obtain ⟨ha0, ha1, hb0, hb1, hd0, hd1⟩ := hc c hcm
    refine ⟨?_, ?_, ?_⟩ <;>
      simpa [map3, Function.comp, closeColor] using u1ofRat_close _ (by assumption) (by assumption)
  · rw [fetchPly_storePly_normals, List.length_map, hlen, min_self]

/-- Witness for C6 at a concrete one-point cloud. -/
theorem storePly_fetchPly_roundtrip_witness :
    (([((0 : ℚ), 1/2, 1)] : List V3).length = ([((1 : ℚ), 2, 3)] : List V3).length ∧
      ∀ c ∈ ([((0 : ℚ), 1/2, 1)] : List V3), inUnitClosed3 c) ∧
    (fetchPly (storePly [((1 : ℚ), 2, 3)]
      (([((0 : ℚ), 1/2, 1)] : List V3).map (map3 fun x => x * 255))) true).points
      = [((1 : ℚ), 2, 3)] := by
  have hc : ∀ c ∈ ([((0 : ℚ), 1/2, 1)] : List V3), inUnitClosed3 c := by
    intro c hcm
    simp only [List.mem_singleton] at hcm
    subst hcm
    refine ⟨le_refl 0, by norm_num, by norm_num, by norm_num, by norm_num, le_refl 1⟩
  exact ⟨⟨rfl, hc⟩,
    (storePly_fetchPly_roundtrip [((1 : ℚ), 2, 3)] [((0 : ℚ), 1/2, 1)] rfl hc).1⟩

/-- Claim C7: the synthesized fallback point cloud has exactly 100000
points, every position inside the cube `[-1.3, 1.3]^3` (given that the
random draws lie in `[0,1)`), and every normal equal to the zero vector. -/
theorem synthPcd_bounds (sh2rgb : ℚ → ℚ) (rand randc : ℕ → V3)
    (hr : ∀ i, inUnitHalfOpen3 (rand i)) :
    ((synthPcd sh2rgb rand randc).points.length = 100000) ∧
    (∀ p ∈ (synthPcd sh2rgb rand randc).points, inCube13 p) ∧
    ((synthPcd sh2rgb rand randc).normals
      = some (List.replicate 100000 ((0 : ℚ), (0 : ℚ), (0 : ℚ)))) := by
  refine ⟨by simp only [synthPcd, synthXyz, List.length_map, List.length_range], ?_,
    by simp only [synthPcd]⟩
  intro p hp
  simp only [synthPcd] at hp
  simp only [synthXyz] at hp
  rw [List.mem_map] at hp
  obtain ⟨i, -, rfl⟩ := hp
  obtain ⟨ha0, ha1, hb0, hb1, hd0, hd1⟩ := hr i
  simp only [map3, inCube13]
  refine ⟨by nlinarith, by nlinarith, by nlinarith, by nlinarith, by nlinarith, by nlinarith⟩

/-- Witness for C7 with the all-zero random stream. -/
theorem synthPcd_bounds_witness :
    (∀ i : ℕ, inUnitHalfOpen3 ((fun _ => ((0 : ℚ), 0, 0)) i)) ∧
    (synthPcd (fun x => x) (fun _ => ((0 : ℚ), 0, 0)) (fun _ => ((0 : ℚ), 0, 0))).points.length
      = 100000 := by
  have hr : ∀ i : ℕ, inUnitHalfOpen3 ((fun _ => ((0 : ℚ), 0, 0)) i) := by
    intro i
    refine ⟨le_refl 0, by norm_num, le_refl 0, by norm_num, le_refl 0, by norm_num⟩
  exact ⟨hr, (synthPcd_bounds (fun x => x) (fun _ => ((0 : ℚ), 0, 0))
    (fun _ => ((0 : ℚ), 0, 0)) hr).1⟩

/-- Claim C8: when the point-cloud container exists but its parse fails, the
load still completes and the returned scene descriptor carries an absent
point cloud, for both the reconstruction-tool and the synthetic loaders. -/
theorem container_parse_failure_absent {α κ : Type} [LinearOrder κ] (e : Unit)
    (name : α → κ) (eval : Bool) (llffhold : ℕ) (cams train test : List α)
    (sh2rgb : ℚ → ℚ) (rand randc : ℕ → V3) :
    ((readColmapSceneInfo name eval llffhold cams (Except.error e)).point_cloud = none) ∧
    ((readNerfSyntheticInfo train test eval sh2rgb (some (Except.error e))
        rand randc).point_cloud = none) := by
  constructor <;>
    simp [readColmapSceneInfo, readNerfSyntheticInfo,
      readColmapSceneInfo_pointCloud, readNerfSyntheticInfo_pointCloud]

/-- Claim C10: when no container exists, the cloud returned by the synthetic
loader is the one read back from the container just written (not the
in-memory draw): every color component is an 8-bit quantized value `k/255`
and every normal is the zero vector. -/
theorem readNerfSyntheticInfo_pointCloud_read_back (sh2rgb : ℚ → ℚ) (rand randc : ℕ → V3) :
    ∃ q, readNerfSyntheticInfo_pointCloud sh2rgb none rand randc = some q ∧
      q = fetchPly
        (storePly (synthXyz rand) ((synthShs randc).map (map3 fun s => sh2rgb s * 255)))
        true ∧
      (∀ c ∈ q.colors, ∃ r g b : ℕ, r ≤ 255 ∧ g ≤ 255 ∧ b ≤ 255 ∧
        c = ((r : ℚ) / 255, (g : ℚ) / 255, (b : ℚ) / 255)) ∧
      q.normals = some (List.replicate 100000 ((0 : ℚ), (0 : ℚ), (0 : ℚ))) := by
  refine ⟨_, rfl, rfl, ?_, ?_⟩
  · intro c hcm
    rw [fetchPly_storePly_colors] at hcm
    simp only [List.mem_map] at hcm
    obtain ⟨r3, -, rfl⟩ := hcm
    have hb : ∀ q : ℚ, u1ofRat q ≤ 255 := by
      intro q
      have := Nat.mod_lt (Int.toNat ⌊q⌋) (show 0 < 256 by norm_num)
      rw [u1ofRat]
      omega
    exact ⟨u1ofRat r3.1, u1ofRat r3.2.1, u1ofRat r3.2.2,
      hb _, hb _, hb _, rfl⟩
  · rw [fetchPly_storePly_normals]
    have h1 : (synthXyz rand).length = 100000 := by simp [synthXyz]
    have h2 : (((synthShs randc).map (map3 fun s => sh2rgb s * 255))).length = 100000 := by
      simp [synthShs]
    rw [h1, h2, min_self]

theorem homog_mul (A B : M3R) (t s : V3R) :
    homog A t * homog B s = homog (A * B) (A.mulVec s + t) := by
  ext i j
  fin_cases i <;> fin_cases j <;>
    simp [homog, Matrix.mul_apply, Fin.sum_univ_four, Matrix.mulVec, Matrix.dotProduct,
      Fin.sum_univ_three]

theorem homog_one : homog 1 0 = 1 := by
  ext i j
  fin_cases i <;> fin_cases j <;>
    simp [homog, Matrix.one_apply, Matrix.vecHead, Matrix.vecTail, Function.comp]

theorem homog_col3 (A : M3R) (t : V3R) (i : Fin 3) :
    homog A t i.castSucc 3 = t i := by
  fin_cases i <;>
    simp [homog, Matrix.vecHead, Matrix.vecTail, Function.comp,
      show (Fin.castSucc 0 : Fin 4) = 0 from rfl, show (Fin.castSucc 1 : Fin 4) = 1 from rfl,
      show (Fin.castSucc 2 : Fin 4) = 2 from rfl]

theorem camCenterOf_eq (cam : CamRT) (h1 : cam.R * cam.R.transpose = 1) :
    camCenterOf cam = specCamCenter cam := by
  have hinv : (getWorld2View2 cam.R cam.T)⁻¹ = homog cam.R (-(cam.R.mulVec cam.T)) := by
    apply Matrix.inv_eq_left_inv
    rw [getWorld2View2, homog_mul, h1]
    have hz : cam.R.mulVec cam.T + -(cam.R.mulVec cam.T) = 0 := by abel
    rw [hz]
    exact homog_one
  funext i
  rw [camCenterOf, hinv, homog_col3]
  rfl

/-- Claim C1: for a non-empty train-camera list with orthonormal rotations,
`getNerfppNorm` returns translate equal to minus the mean of the camera
centers and radius equal to 1.1 times the largest Euclidean distance from
the mean to a center, where each center is the translation column of the
inverted world-to-camera transform (in closed form `-(R T)` for the stored
rotation `R` and translation `T`); for a single camera the radius is 0. -/
theorem getNerfppNorm_correct (cams : List CamRT) (hne : cams ≠ [])
    (horth : ∀ c ∈ cams, c.R * c.R.transpose = 1) :
    ((getNerfppNorm cams).translate = -(specMean cams)) ∧
    ((getNerfppNorm cams).radius
      = 1.1 * listMax (cams.map
          fun c => Real.sqrt (∑ i, (specCamCenter c i - specMean cams i) ^ 2))) ∧
    (∀ c, cams = [c] → (getNerfppNorm cams).radius = 0) := by
  have hmap : cams.map camCenterOf = cams.map specCamCenter :=
    List.map_congr_left fun c hc => camCenterOf_eq c (horth c hc)
  refine ⟨?_, ?_, ?_⟩
  · rw [getNerfppNorm, specMean, hmap]
  · rw [getNerfppNorm, specMean, hmap]
    simp only [List.map_map]
    rw [mul_comm]
    rfl
  · intro c hc
    subst hc
    rw [getNerfppNorm]
    simp [listMax, hmap, List.sum_cons, Real.sqrt_eq_zero']

/-- Witness for C1 at a single identity camera. -/
theorem getNerfppNorm_correct_witness :
    (([camW] : List CamRT) ≠ [] ∧ ∀ c ∈ [camW], c.R * c.R.transpose = 1) ∧
    (getNerfppNorm [camW]).radius = 0 := by
  have horth : ∀ c ∈ [camW], c.R * c.R.transpose = 1 := by
    intro c hc
    simp only [List.mem_singleton] at hc
    subst hc
    simp [camW, Matrix.transpose_one]
  exact ⟨⟨by simp, horth⟩,
    (getNerfppNorm_correct [camW] (by simp) horth).2.2 camW rfl⟩

theorem npInv_eq_inv (A : M4Q) : npInv A = A⁻¹ := by
  rw [Matrix.inv_def, npInv, Ring.inverse_eq_inv]

theorem scaleT_one (s : ℚ) : scaleT s (1 : M4Q) = 1 := by
  ext i j
  by_cases h : (i : ℕ) < 3 ∧ (j : ℕ) = 3
  · have hne : i ≠ j := by
      intro he
      rw [he] at h
      omega
    simp [scaleT, h, Matrix.one_apply_ne hne]
  · simp [scaleT, h]

theorem getLastD_map {α β : Type} (f : α → β) (l : List α) (d : α) :
    (l.map f).getLastD (f d) = f (l.getLastD d) := by
  induction l generalizing d with
  | nil => rfl
  | cons a l ih => rw [List.map_cons, List.getLastD_cons, List.getLastD_cons, ih]

theorem scaleT_entry23 (s : ℚ) (p : M4Q) : scaleT s p 2 3 = p 2 3 / s := by
  simp [scaleT, show ((2 : Fin 4) : ℕ) = 2 from rfl, show ((3 : Fin 4) : ℕ) = 3 from rfl]

/-- Claim C5: for a non-empty pose sequence whose re-based terminal frame
has a nonzero depth translation component, `Normailize_T` makes the first
pose exactly the identity matrix and makes the depth component of the
terminal translation exactly 1. -/
theorem Normailize_T_normalizes (poses : List M4Q) (hne : poses ≠ [])
    (hs : termScale poses ≠ 0) :
    ((Normailize_T poses).head? = some 1) ∧
    (((Normailize_T poses).getLastD 1) 2 3 = 1) := by
  obtain ⟨p0, rest, rfl⟩ : ∃ p0 rest, poses = p0 :: rest :=
    ⟨poses.head hne, poses.tail, (List.head_cons_tail poses hne).symm⟩
  constructor
  · simp [Normailize_T, rebase, scaleT_one]
  · have h1 : (Normailize_T (p0 :: rest)).getLastD 1
        = scaleT (termScale (p0 :: rest)) ((rebase (p0 :: rest)).getLastD 1) := by
      rw [Normailize_T]
      rw [← scaleT_one (termScale (p0 :: rest))]
      exact getLastD_map _ _ _
    rw [h1, scaleT_entry23]
    exact div_self hs

/-- Witness for C5 at a two-pose sequence: the identity followed by a unit
rotation translated by 2 along the depth axis. -/
theorem Normailize_T_normalizes_witness :
    ((Normailize_T [(1 : M4Q), poseW]).head? = some 1) ∧
    (((Normailize_T [(1 : M4Q), poseW]).getLastD 1) 2 3 = 1) := by
  refine Normailize_T_normalizes [(1 : M4Q), poseW] (by simp) ?_
  have h : termScale [(1 : M4Q), poseW] = 2 := by
    simp [termScale, rebase, npInv, Matrix.det_one, Matrix.adjugate_one, List.getLastD_cons,
      poseW, show ((2 : Fin 4) : ℕ) = 2 from rfl, show ((3 : Fin 4) : ℕ) = 3 from rfl]
  rw [h]
  norm_num
